import Mathlib

/-!
Verification of the nbssh crate: the `Address` endpoint type (parsing,
rendering, serialization) and the `SshParams` command-argument builder,
embedded shallowly from `src/lib.rs`, plus the earlier `src/address.rs`
module (non-optional port, `parse_vec`).

Rust strings are modelled as `List Char`; `OsString` / `PathBuf` values are
modelled as strings as well (the crate only moves them around verbatim).
-/

/-- Strings of the Rust source, modelled as lists of characters. -/
abbrev Str := List Char

/-- Equality of `Except` results is decidable when both components are. -/
instance {ε α : Type} [DecidableEq ε] [DecidableEq α] : DecidableEq (Except ε α)
  | .error a, .error b => decidable_of_iff (a = b) (by simp)
  | .error _, .ok _ => isFalse (by simp)
  | .ok _, .error _ => isFalse (by simp)
  | .ok a, .ok b => decidable_of_iff (a = b) (by simp)

/-- Model of Rust `address.split(':').collect::<Vec<&str>>()`: splitting an
empty string yields one empty part, and each separator starts a new part. -/
def splitOn (sep : Char) : Str → List Str
  | [] => [[]]
  | c :: rest =>
    let r := splitOn sep rest
    if c = sep then
      [] :: r
    else
      match r with
      | [] => [[c]]
      | y :: ys => (c :: y) :: ys

/-- Decimal digit character, as produced by Rust integer formatting. -/
def digitChar : Nat → Char
  | 0 => '0'
  | 1 => '1'
  | 2 => '2'
  | 3 => '3'
  | 4 => '4'
  | 5 => '5'
  | 6 => '6'
  | 7 => '7'
  | 8 => '8'
  | 9 => '9'
  | _ => '*'

/-- Fuel-indexed decimal rendering; the fuel only bounds the recursion depth
so that the definition is structural. -/
def natReprAux : Nat → Nat → Str
  | 0, _ => []
  | fuel + 1, n =>
    if n < 10 then
      [digitChar n]
    else
      natReprAux fuel (n / 10) ++ [digitChar (n % 10)]

/-- Model of Rust `n.to_string()` / `format!` for an unsigned integer:
the canonical decimal representation, most significant digit first. -/
def natRepr (n : Nat) : Str := natReprAux (n + 1) n

/-- Digit-sequence part of Rust `u16::from_str`: one or more ASCII digits
whose value fits in a u16; anything else fails. -/
def parseDigits (digits : Str) : Option Nat :=
  if digits = [] then
    none
  else if digits.all Char.isDigit then
    if digits.foldl (fun acc c => acc * 10 + (c.toNat - 48)) 0 ≤ 65535 then
      some (digits.foldl (fun acc c => acc * 10 + (c.toNat - 48)) 0)
    else
      none
  else
    none

/-- Model of Rust `str::parse::<u16>()` (`u16::from_str`): an optional
leading `+` sign, then one or more ASCII digits, value at most 65535;
anything else fails. -/
def parseU16 (s : Str) : Option Nat :=
  parseDigits (if s.head? = some '+' then s.tail else s)

/-- Host and port number (`Address` of `src/lib.rs`): `host` is an opaque
string, `port` is an optional u16. -/
structure Address where
  host : Str
  port : Option Nat
  deriving DecidableEq, Repr

/-- Address parse errors (`AddressError` of `src/lib.rs`): `InvalidFormat`
(more than one colon, per the doc comment also the empty address) and
`InvalidPort` (the port number could not be parsed as a u16). -/
inductive AddressError where
  | InvalidFormat
  | InvalidPort
  deriving DecidableEq, Repr

/-- `Address::new(host, port)` of `src/lib.rs`. -/
def Address.new (host : Str) (port : Nat) : Address := ⟨host, some port⟩

/-- `Address::from_host(host)` of `src/lib.rs`. -/
def Address.from_host (host : Str) : Address := ⟨host, none⟩

/-- `Address::parse` of `src/lib.rs`: split on `:`; two parts parse the
port, one part is a bare host, any other count is a format error. -/
def Address.parse (address : Str) : Except AddressError Address :=
  match splitOn ':' address with
  | [h1, p1] =>
    match parseU16 p1 with
    | some port => .ok (Address.new h1 port)
    | none => .error AddressError.InvalidPort
  | [_] => .ok (Address.from_host address)
  | _ => .error AddressError.InvalidFormat

/-- `Address::port_str` of `src/lib.rs`: the port as a decimal string, or
the empty string when absent. -/
def Address.port_str (a : Address) : Str :=
  match a.port with
  | some port => natRepr port
  | none => []

/-- The `Display` impl for `Address` in `src/lib.rs`: `host:port` when the
port is present, `host` alone otherwise. -/
def Address.render (a : Address) : Str :=
  match a.port with
  | some port => a.host ++ ':' :: natRepr port
  | none => a.host

/-- The `Serialize` impl for `Address` in `src/lib.rs`: serializes the
string produced by `Display` (`self.to_string()`). -/
def Address.serializeStr (a : Address) : Str := a.render

/-- Inputs for an SSH command (`SshParams` of `src/lib.rs`). -/
structure SshParams where
  address : Address
  identity : Option Str
  user : Option Str
  strict_host_key_checking : Bool
  deriving DecidableEq, Repr

/-- `SshParams::command` of `src/lib.rs`: builds the full argument vector
by successive pushes, mirroring the source line by line. -/
def SshParams.command (p : SshParams) (args : List Str) : List Str :=
  let output : List Str := ["ssh".data]
  let output :=
    if !p.strict_host_key_checking then
      output ++ ["-oStrictHostKeyChecking=no".data, "-oUserKnownHostsFile=/dev/null".data]
    else
      output
  let output := output ++ ["-oBatchMode=yes".data]
  let output :=
    match p.identity with
    | some identity => output ++ ["-i".data, identity]
    | none => output
  let output :=
    match p.address.port with
    | some port => output ++ ["-p".data, natRepr port]
    | none => output
  let target :=
    match p.user with
    | some user => user ++ "@".data ++ p.address.host
    | none => p.address.host
  (output ++ [target]) ++ args

namespace address

/-- `Address` of the earlier `src/address.rs` module: the port is a plain
u16, never absent. -/
structure Address where
  host : Str
  port : Nat
  deriving DecidableEq, Repr

/-- `Address::new` of `src/address.rs`. -/
def Address.new (host : Str) (port : Nat) : Address := ⟨host, port⟩

/-- `Address::parse` of `src/address.rs`: like the lib.rs parser, except a
bare host gets the default port 22. -/
def Address.parse (addr : Str) : Except AddressError Address :=
  match splitOn ':' addr with
  | [h1, p1] =>
    match parseU16 p1 with
    | some port => .ok (Address.new h1 port)
    | none => .error AddressError.InvalidPort
  | [_] => .ok (Address.new addr 22)
  | _ => .error AddressError.InvalidFormat

/-- `Address::parse_vec` of `src/address.rs`: parse each element in order,
returning the first error, or all addresses in input order. -/
def Address.parse_vec : List Str → Except AddressError (List Address)
  | [] => .ok []
  | x :: xs =>
    match Address.parse x with
    | .ok addr =>
      match Address.parse_vec xs with
      | .ok rest => .ok (addr :: rest)
      | .error e => .error e
    | .error e => .error e

end address

/-! Helper lemmas about `splitOn`. -/

theorem splitOn_nil (c : Char) : splitOn c [] = [[]] := rfl

theorem splitOn_cons_self (c : Char) (xs : Str) :
    splitOn c (c :: xs) = [] :: splitOn c xs := by
  simp [splitOn]

theorem splitOn_cons_ne (c x : Char) (xs : Str) (hx : ¬ x = c)
    (y : Str) (ys : List Str) (hs : splitOn c xs = y :: ys) :
    splitOn c (x :: xs) = (x :: y) :: ys := by
  simp [splitOn, hx, hs]

theorem splitOn_ne_nil (c : Char) (s : Str) : splitOn c s ≠ [] := by
  induction s with
  | nil => simp [splitOn]
  | cons x xs ih =>
    rcases hs : splitOn c xs with _ | ⟨y, ys⟩
    · exact absurd hs ih
    · by_cases hx : x = c
      · rw [hx, splitOn_cons_self c xs]
        simp
      · rw [splitOn_cons_ne c x xs hx y ys hs]
        simp

theorem length_splitOn (c : Char) (s : Str) :
    (splitOn c s).length = s.count c + 1 := by
  induction s with
  | nil => simp [splitOn]
  | cons x xs ih =>
    rcases hs : splitOn c xs with _ | ⟨y, ys⟩
    · exact absurd hs (splitOn_ne_nil c xs)
    · rw [hs] at ih
      by_cases hx : x = c
      · rw [hx, splitOn_cons_self c xs, hs]
        simp only [List.length_cons, List.count_cons_self] at ih ⊢
        omega
      · rw [splitOn_cons_ne c x xs hx y ys hs,
          List.count_cons_of_ne (fun h => hx h.symm)]
        simp only [List.length_cons] at ih ⊢
        omega

theorem splitOn_of_not_mem (c : Char) (s : Str) (h : c ∉ s) :
    splitOn c s = [s] := by
  induction s with
  | nil => simp [splitOn]
  | cons x xs ih =>
    have hx : ¬ x = c := fun hh => h (hh ▸ List.mem_cons_self x xs)
    have hxs : c ∉ xs := fun hh => h (List.mem_cons_of_mem x hh)
    exact splitOn_cons_ne c x xs hx xs [] (ih hxs)

theorem splitOn_append_cons (c : Char) (xs ys : Str) (h : c ∉ xs) :
    splitOn c (xs ++ c :: ys) = xs :: splitOn c ys := by
  induction xs with
  | nil => simpa using splitOn_cons_self c ys
  | cons x xs ih =>
    have hx : ¬ x = c := fun hh => h (hh ▸ List.mem_cons_self x xs)
    have hxs : c ∉ xs := fun hh => h (List.mem_cons_of_mem x hh)
    rcases hs : splitOn c (xs ++ c :: ys) with _ | ⟨y, ys₂⟩
    · exact absurd hs (splitOn_ne_nil c _)
    · have ihr := ih hxs
      rw [hs] at ihr
      injection ihr with hy hys
      rw [List.cons_append, splitOn_cons_ne c x (xs ++ c :: ys) hx y ys₂ hs,
        hy, hys]

theorem splitOn_eq_singleton (c : Char) (s h1 : Str)
    (h : splitOn c s = [h1]) : s = h1 := by
  induction s generalizing h1 with
  | nil =>
    simp only [splitOn, List.cons.injEq, and_true] at h
    exact h
  | cons x xs ih =>
    rcases hs : splitOn c xs with _ | ⟨y, ys⟩
    · exact absurd hs (splitOn_ne_nil c xs)
    · by_cases hx : x = c
      · rw [hx, splitOn_cons_self c xs, hs] at h
        simp at h
      · rw [splitOn_cons_ne c x xs hx y ys hs] at h
        injection h with hh1 hys
        subst hys
        rw [← hh1, ih y hs]

theorem splitOn_eq_pair (c : Char) (s h1 p1 : Str)
    (h : splitOn c s = [h1, p1]) : s = h1 ++ c :: p1 := by
  induction s generalizing h1 with
  | nil => simp [splitOn] at h
  | cons x xs ih =>
    rcases hs : splitOn c xs with _ | ⟨y, ys⟩
    · exact absurd hs (splitOn_ne_nil c xs)
    · by_cases hx : x = c
      · rw [hx, splitOn_cons_self c xs, hs] at h
        injection h with hh1 hrest
        injection hrest with hy hys
        subst hys
        rw [hy] at hs
        rw [← hh1, hx, splitOn_eq_singleton c xs p1 hs]
        simp
      · rw [splitOn_cons_ne c x xs hx y ys hs] at h
        injection h with hh1 hys
        subst hys
        rw [← hh1, ih y hs]
        simp

/-! Helper lemmas about decimal rendering and port parsing. -/

theorem digitChar_isDigit {d : Nat} (h : d < 10) : (digitChar d).isDigit = true := by
  interval_cases d <;> decide

theorem toNat_digitChar {d : Nat} (h : d < 10) : (digitChar d).toNat - 48 = d := by
  interval_cases d <;> decide

theorem natReprAux_ne_nil (fuel n : Nat) (h : n < fuel) : natReprAux fuel n ≠ [] := by
  induction fuel generalizing n with
  | zero => omega
  | succ fuel ih =>
    simp only [natReprAux]
    split
    · simp
    · simp

theorem natReprAux_digits (fuel n : Nat) (h : n < fuel) :
    ∀ ch ∈ natReprAux fuel n, ch.isDigit = true := by
  induction fuel generalizing n with
  | zero => omega
  | succ fuel ih =>
    intro ch hch
    simp only [natReprAux] at hch
    split at hch
    next hlt =>
      rw [List.mem_singleton] at hch
      subst hch
      exact digitChar_isDigit hlt
    next hge =>
      rcases List.mem_append.mp hch with h1 | h2
      · exact ih (n / 10) (by omega) ch h1
      · rw [List.mem_singleton] at h2
        subst h2
        exact digitChar_isDigit (Nat.mod_lt _ (by omega))

theorem natReprAux_foldl (fuel n : Nat) (h : n < fuel) (a : Nat) :
    (natReprAux fuel n).foldl (fun acc c => acc * 10 + (c.toNat - 48)) a =
      a * 10 ^ (natReprAux fuel n).length + n := by
  induction fuel generalizing n a with
  | zero => omega
  | succ fuel ih =>
    simp only [natReprAux]
    split
    next hlt =>
      simp only [List.foldl_cons, List.foldl_nil, List.length_cons,
        List.length_nil, toNat_digitChar hlt, pow_one, zero_add]
    next hge =>
      have hd : n / 10 < fuel := by omega
      rw [List.foldl_append, ih (n / 10) hd a]
      simp only [List.foldl_cons, List.foldl_nil, List.length_append,
        List.length_cons, List.length_nil]
      rw [toNat_digitChar (Nat.mod_lt _ (by omega))]
      have hm : n / 10 * 10 + n % 10 = n := by omega
      calc (a * 10 ^ (natReprAux fuel (n / 10)).length + n / 10) * 10 + n % 10
          = a * (10 ^ (natReprAux fuel (n / 10)).length * 10) +
              (n / 10 * 10 + n % 10) := by ring
        _ = a * 10 ^ ((natReprAux fuel (n / 10)).length + 1) + n := by
              rw [hm, pow_succ]

theorem natRepr_ne_nil (n : Nat) : natRepr n ≠ [] :=
  natReprAux_ne_nil (n + 1) n (Nat.lt_succ_self n)

theorem natRepr_digits (n : Nat) : ∀ ch ∈ natRepr n, ch.isDigit = true :=
  natReprAux_digits (n + 1) n (Nat.lt_succ_self n)

theorem natRepr_foldl (n : Nat) :
    (natRepr n).foldl (fun acc c => acc * 10 + (c.toNat - 48)) 0 = n := by
  have := natReprAux_foldl (n + 1) n (Nat.lt_succ_self n) 0
  simpa using this

theorem colon_not_mem_natRepr (n : Nat) : ':' ∉ natRepr n := by
  intro h
  have := natRepr_digits n _ h
  simp [Char.isDigit] at this

theorem parseU16_bound {s : Str} {n : Nat} (h : parseU16 s = some n) :
    n ≤ 65535 := by
  unfold parseU16 parseDigits at h
  repeat' split at h
  all_goals simp_all

theorem parseU16_natRepr {n : Nat} (h : n ≤ 65535) :
    parseU16 (natRepr n) = some n := by
  rcases hr : natRepr n with _ | ⟨c, cs⟩
  · exact absurd hr (natRepr_ne_nil n)
  · have hcd : c.isDigit = true :=
      natRepr_digits n c (by rw [hr] ; exact List.mem_cons_self c cs)
    have hcp : ¬ c = '+' := by
      intro hc
      rw [hc] at hcd
      simp [Char.isDigit] at hcd
    unfold parseU16
    rw [if_neg (by simp [hcp])]
    rw [← hr]
    unfold parseDigits
    rw [if_neg (natRepr_ne_nil n)]
    rw [if_pos (List.all_eq_true.mpr (fun ch hch => natRepr_digits n ch hch))]
    rw [natRepr_foldl n, if_pos h]

/-! Helper lemmas about `Address.parse` of `src/lib.rs`. -/

theorem parse_of_no_colon (s : Str) (h : ':' ∉ s) :
    Address.parse s = .ok ⟨s, none⟩ := by
  simp [Address.parse, splitOn_of_not_mem ':' s h, Address.from_host]

theorem parse_pair_of_some (h1 p1 : Str) (n : Nat) (hh : ':' ∉ h1) (hp : ':' ∉ p1)
    (hn : parseU16 p1 = some n) :
    Address.parse (h1 ++ ':' :: p1) = .ok ⟨h1, some n⟩ := by
  have hs : splitOn ':' (h1 ++ ':' :: p1) = [h1, p1] := by
    rw [splitOn_append_cons ':' h1 p1 hh, splitOn_of_not_mem ':' p1 hp]
  simp [Address.parse, hs, hn, Address.new]

theorem parse_pair_of_none (h1 p1 : Str) (hh : ':' ∉ h1) (hp : ':' ∉ p1)
    (hn : parseU16 p1 = none) :
    Address.parse (h1 ++ ':' :: p1) = .error AddressError.InvalidPort := by
  have hs : splitOn ':' (h1 ++ ':' :: p1) = [h1, p1] := by
    rw [splitOn_append_cons ':' h1 p1 hh, splitOn_of_not_mem ':' p1 hp]
  simp [Address.parse, hs, hn]

theorem parse_ok_cases (s : Str) (a : Address) (h : Address.parse s = .ok a) :
    (a = ⟨s, none⟩ ∧ ':' ∉ s) ∨
    (∃ p1 n, s = a.host ++ ':' :: p1 ∧ ':' ∉ a.host ∧ ':' ∉ p1 ∧
      parseU16 p1 = some n ∧ a.port = some n) := by
  rcases hsplit : splitOn ':' s with _ | ⟨h1, rest⟩
  · exact absurd hsplit (splitOn_ne_nil ':' s)
  rcases rest with _ | ⟨p1, rest2⟩
  · left
    have hcount : s.count ':' = 0 := by
      have := length_splitOn ':' s
      rw [hsplit] at this
      simpa using this.symm
    have hno : ':' ∉ s := List.count_eq_zero.mp hcount
    rw [parse_of_no_colon s hno] at h
    injection h with ha
    exact ⟨ha.symm, hno⟩
  rcases rest2 with _ | ⟨q, rest3⟩
  · right
    have hseq : s = h1 ++ ':' :: p1 := splitOn_eq_pair ':' s h1 p1 hsplit
    have hcount : s.count ':' = 1 := by
      have := length_splitOn ':' s
      rw [hsplit] at this
      simpa using this.symm
    have hcounts : h1.count ':' + (p1.count ':' + 1) = 1 := by
      rw [hseq] at hcount
      simpa [List.count_append, List.count_cons_self] using hcount
    have hnh : ':' ∉ h1 := List.count_eq_zero.mp (by omega)
    have hnp : ':' ∉ p1 := List.count_eq_zero.mp (by omega)
    simp only [Address.parse, hsplit] at h
    rcases hn : parseU16 p1 with _ | n
    · rw [hn] at h
      simp at h
    · rw [hn] at h
      simp only [Address.new, Except.ok.injEq] at h
      subst h
      exact ⟨p1, n, hseq, hnh, hnp, hn, rfl⟩
  · simp only [Address.parse, hsplit] at h
    simp at h

/-! Claim theorems about the lib.rs `Address`. -/

/-- C6: every input string containing no colon parses successfully into an
address whose host is the whole input and whose port is absent. -/
theorem parse_no_colon (s : Str) (h : ':' ∉ s) :
    Address.parse s = .ok (Address.mk s none) :=
  parse_of_no_colon s h

/-- Witness for `parse_no_colon` at the concrete input "myHost". -/
theorem parse_no_colon_witness :
    ':' ∉ "myHost".data ∧
    Address.parse "myHost".data = .ok (Address.mk "myHost".data none) :=
  ⟨by decide, parse_no_colon "myHost".data (by decide)⟩

/-- C7: every "h:p" input with exactly one colon whose second segment is a
valid u16 parses into host h and that port; the host may be empty. -/
theorem parse_host_port (h1 p1 : Str) (n : Nat) (hh : ':' ∉ h1)
    (hp : ':' ∉ p1) (hn : parseU16 p1 = some n) :
    Address.parse (h1 ++ ':' :: p1) = .ok (Address.mk h1 (some n)) :=
  parse_pair_of_some h1 p1 n hh hp hn

/-- Witness for `parse_host_port` at the empty-host input ":22". -/
theorem parse_host_port_witness :
    ':' ∉ "".data ∧ ':' ∉ "22".data ∧ parseU16 "22".data = some 22 ∧
    Address.parse ":22".data = .ok (Address.mk "".data (some 22)) :=
  ⟨by decide, by decide, by decide,
   parse_host_port "".data "22".data 22 (by decide) (by decide) (by decide)⟩

/-- C8: every "h:p" input with exactly one colon whose second segment is
not a valid u16 fails with `InvalidPort`, and `InvalidFormat` and
`InvalidPort` are the only errors `parse` can return. -/
theorem parse_invalid_port :
    (∀ (h1 p1 : Str), ':' ∉ h1 → ':' ∉ p1 → parseU16 p1 = none →
      Address.parse (h1 ++ ':' :: p1) = .error AddressError.InvalidPort) ∧
    (∀ (s : Str) (e : AddressError), Address.parse s = .error e →
      e = AddressError.InvalidFormat ∨ e = AddressError.InvalidPort) := by
  constructor
  · exact fun h1 p1 hh hp hn => parse_pair_of_none h1 p1 hh hp hn
  · intro s e _
    cases e
    · exact Or.inl rfl
    · exact Or.inr rfl

/-- Witness for `parse_invalid_port` at the concrete input "a:b". -/
theorem parse_invalid_port_witness :
    Address.parse "a:b".data = .error AddressError.InvalidPort ∧
    (AddressError.InvalidPort = AddressError.InvalidFormat ∨
      AddressError.InvalidPort = AddressError.InvalidPort) :=
  ⟨parse_invalid_port.1 "a".data "b".data (by decide) (by decide) (by decide),
   parse_invalid_port.2 "a:b".data AddressError.InvalidPort (by decide)⟩

/-- C4 (code bug): `Address::parse` accepts the empty string — splitting
"" on a colon yields a single empty part — and returns host "" with no
port, although the claim and the crate's own `InvalidFormat` doc comment
say an empty address is an invalid format; inputs with two or more colons
do fail with `InvalidFormat` as claimed. -/
theorem parse_empty_string_succeeds :
    Address.parse "".data = .ok (Address.mk "".data none) ∧
    Address.parse "a:1:2".data = .error AddressError.InvalidFormat := by
  decide

/-- C2 counterexample: an address with the default port 22 renders as
"abc:22", not as the bare host the claim requires. -/
theorem render_default_port_not_suppressed :
    (Address.mk "abc".data (some 22)).render = "abc:22".data ∧
    "abc:22".data ≠ "abc".data := by decide

/-- C2 (amended): render/Display produces the host alone exactly when the
port is absent and "host:port" whenever the port is present — including
the default 22 — and serialization produces the same single string. -/
theorem render_and_serialize_canonical (a : Address) :
    a.serializeStr = a.render ∧
    (a.port = none → a.render = a.host) ∧
    (∀ n, a.port = some n → a.render = a.host ++ ':' :: natRepr n) := by
  refine ⟨rfl, ?_, ?_⟩
  · intro hp
    simp [Address.render, hp]
  · intro n hp
    simp [Address.render, hp]

/-- Witness for `render_and_serialize_canonical` at host "abc", port 123. -/
theorem render_and_serialize_canonical_witness :
    (Address.mk "abc".data (some 123)).serializeStr =
        (Address.mk "abc".data (some 123)).render ∧
    (Address.mk "abc".data (some 123)).render =
      "abc".data ++ ':' :: natRepr 123 :=
  ⟨(render_and_serialize_canonical (Address.mk "abc".data (some 123))).1,
   (render_and_serialize_canonical (Address.mk "abc".data (some 123))).2.2
     123 rfl⟩

/-- C3 counterexample: parsing "h:22" and rendering gives back "h:22",
not the normalized "h" the claim requires. -/
theorem roundtrip_h22_renders_h22 :
    Address.parse "h:22".data = .ok (Address.mk "h".data (some 22)) ∧
    (Address.mk "h".data (some 22)).render = "h:22".data ∧
    "h:22".data ≠ "h".data := by decide

/-- C3 (amended): render after parse is the identity on every string with
no colon and on every "h:p" whose port segment is a canonical decimal
u16 — including the default port 22; no default-port normalization
happens. -/
theorem parse_render_roundtrip :
    (∀ s : Str, ':' ∉ s →
      ∃ a, Address.parse s = .ok a ∧ a.render = s) ∧
    (∀ (h1 : Str) (n : Nat), ':' ∉ h1 → n ≤ 65535 →
      ∃ a, Address.parse (h1 ++ ':' :: natRepr n) = .ok a ∧
        a.render = h1 ++ ':' :: natRepr n) := by
  constructor
  · intro s hs
    exact ⟨⟨s, none⟩, parse_of_no_colon s hs, rfl⟩
  · intro h1 n hh hn
    refine ⟨⟨h1, some n⟩, ?_, rfl⟩
    exact parse_pair_of_some h1 (natRepr n) n hh (colon_not_mem_natRepr n)
      (parseU16_natRepr hn)

/-- Witness for `parse_render_roundtrip` at "abc" and "h:9222". -/
theorem parse_render_roundtrip_witness :
    (∃ a, Address.parse "abc".data = .ok a ∧ a.render = "abc".data) ∧
    (∃ a, Address.parse "h:9222".data = .ok a ∧ a.render = "h:9222".data) :=
  ⟨parse_render_roundtrip.1 "abc".data (by decide),
   parse_render_roundtrip.2 "h".data 9222 (by decide) (by decide)⟩

/-- C10: every address produced by a successful parse has a colon-free
host, and re-parsing its rendered form succeeds, returning the same
address. -/
theorem parse_render_reparse (s : Str) (a : Address)
    (h : Address.parse s = .ok a) :
    ':' ∉ a.host ∧ Address.parse a.render = .ok a := by
  rcases parse_ok_cases s a h with ⟨ha, hno⟩ | ⟨p1, n, hseq, hnh, hnp, hn, hport⟩
  · subst ha
    exact ⟨hno, parse_of_no_colon s hno⟩
  · refine ⟨hnh, ?_⟩
    have hb := parseU16_bound hn
    have hrender : a.render = a.host ++ ':' :: natRepr n := by
      simp [Address.render, hport]
    rw [hrender,
      parse_pair_of_some a.host (natRepr n) n hnh (colon_not_mem_natRepr n)
        (parseU16_natRepr hb)]
    rw [← hport]

/-- Witness for `parse_render_reparse` at the parse of "a:1". -/
theorem parse_render_reparse_witness :
    ':' ∉ (Address.mk "a".data (some 1)).host ∧
    Address.parse (Address.mk "a".data (some 1)).render =
      .ok (Address.mk "a".data (some 1)) :=
  parse_render_reparse "a:1".data (Address.mk "a".data (some 1)) (by decide)

/-! Claim theorems about the command builder and the batch parser. -/

/-- C1: `SshParams::command` returns exactly, in this order: "ssh"; the
two host-key tokens when strict checking is off; "-oBatchMode=yes"; "-i"
and the identity path when present; "-p" and the decimal port when
present; one target token; then the caller's arguments unchanged — and on
the documented concrete input it yields the exact eleven-token vector. -/
theorem command_builds_exact_argument_vector :
    (∀ (p : SshParams) (args : List Str), ∃ target,
      p.command args =
        "ssh".data ::
          ((if p.strict_host_key_checking then []
            else ["-oStrictHostKeyChecking=no".data,
              "-oUserKnownHostsFile=/dev/null".data]) ++
            ["-oBatchMode=yes".data] ++
            (match p.identity with
             | some i => ["-i".data, i]
             | none => []) ++
            (match p.address.port with
             | some port => ["-p".data, natRepr port]
             | none => []) ++
            [target] ++ args)) ∧
    SshParams.command
        ⟨⟨"localhost".data, some 9222⟩, some "/myIdentity".data,
          some "me".data, false⟩
        ["arg1".data, "arg2".data] =
      ["ssh".data, "-oStrictHostKeyChecking=no".data,
        "-oUserKnownHostsFile=/dev/null".data, "-oBatchMode=yes".data,
        "-i".data, "/myIdentity".data, "-p".data, "9222".data,
        "me@localhost".data, "arg1".data, "arg2".data] := by
  constructor
  · intro p args
    obtain ⟨⟨host, port⟩, identity, user, strict⟩ := p
    refine ⟨(match user with
      | some u => u ++ "@".data ++ host
      | none => host), ?_⟩
    cases strict <;> cases identity <;> cases port <;> cases user <;>
      simp [SshParams.command]
  · decide

/-- C5 (amended): in the built argument vector the target token equals
"user@host" whenever `user` is present — even when it is the empty
string, which yields "@host" — and equals the bare host only when `user`
is absent. -/
theorem command_target_token (p : SshParams) (args : List Str) :
    p.command args =
      "ssh".data ::
        ((if p.strict_host_key_checking then []
          else ["-oStrictHostKeyChecking=no".data,
            "-oUserKnownHostsFile=/dev/null".data]) ++
          ["-oBatchMode=yes".data] ++
          (match p.identity with
           | some i => ["-i".data, i]
           | none => []) ++
          (match p.address.port with
           | some port => ["-p".data, natRepr port]
           | none => []) ++
          [(match p.user with
            | some u => u ++ "@".data ++ p.address.host
            | none => p.address.host)] ++ args) := by
  obtain ⟨⟨host, port⟩, identity, user, strict⟩ := p
  cases strict <;> cases identity <;> cases port <;> cases user <;>
    simp [SshParams.command]

/-- C5 counterexample: with `user` present but empty the target token is
"@h" — it contains an at sign — not the bare host the claim requires. -/
theorem empty_user_target_has_at_sign :
    SshParams.command ⟨⟨"h".data, none⟩, none, some "".data, true⟩ [] =
      ["ssh".data, "-oBatchMode=yes".data, "@h".data] ∧
    "@h".data ≠ "h".data := by decide

/-- C9: `Address::parse_vec` fails fast with exactly the error of the
earliest invalid element, and succeeds with the parsed addresses in input
order when every element parses. -/
theorem parse_vec_fail_fast :
    (∀ (pre post : List Str) (x : Str) (e : AddressError),
      (∀ y ∈ pre, ∃ a, address.Address.parse y = .ok a) →
      address.Address.parse x = .error e →
      address.Address.parse_vec (pre ++ x :: post) = .error e) ∧
    (∀ l : List Str, (∀ y ∈ l, ∃ a, address.Address.parse y = .ok a) →
      ∃ as, address.Address.parse_vec l = .ok as ∧
        List.Forall₂ (fun y a => address.Address.parse y = .ok a) l as) := by
  constructor
  · intro pre post x e
    induction pre with
    | nil =>
      intro _ hx
      simp only [List.nil_append, address.Address.parse_vec, hx]
    | cons y ys ih =>
      intro hpre hx
      obtain ⟨a, ha⟩ := hpre y (List.mem_cons_self y ys)
      have hrest := ih (fun z hz => hpre z (List.mem_cons_of_mem y hz)) hx
      simp only [List.cons_append, address.Address.parse_vec, ha,
        List.append_eq, hrest]
  · intro l
    induction l with
    | nil => exact fun _ => ⟨[], rfl, List.Forall₂.nil⟩
    | cons y ys ih =>
      intro hl
      obtain ⟨a, ha⟩ := hl y (List.mem_cons_self y ys)
      obtain ⟨as, has, hfa⟩ := ih (fun z hz => hl z (List.mem_cons_of_mem y hz))
      refine ⟨a :: as, ?_, List.Forall₂.cons ha hfa⟩
      simp only [address.Address.parse_vec, ha, has]

/-- Witness for `parse_vec_fail_fast`: the batch ["a", "b:xyz"] fails
with the second element's port error, and the batch ["a"] succeeds. -/
theorem parse_vec_fail_fast_witness :
    address.Address.parse_vec ["a".data, "b:xyz".data] =
      .error AddressError.InvalidPort ∧
    (∃ as, address.Address.parse_vec ["a".data] = .ok as ∧
      List.Forall₂ (fun y a => address.Address.parse y = .ok a)
        ["a".data] as) := by
  constructor
  · exact parse_vec_fail_fast.1 ["a".data] [] "b:xyz".data
      AddressError.InvalidPort
      (by
        intro y hy
        rw [List.mem_singleton] at hy
        subst hy
        exact ⟨address.Address.mk "a".data 22, by decide⟩)
      (by decide)
  · exact parse_vec_fail_fast.2 ["a".data]
      (by
        intro y hy
        rw [List.mem_singleton] at hy
        subst hy
        exact ⟨address.Address.mk "a".data 22, by decide⟩)

/-! Sanity checks mirroring the unit tests of the repository. -/

/-- Mirror of `test_address_parse` in `src/lib.rs`. -/
theorem test_address_parse :
    Address.parse "a".data = .ok (Address.from_host "a".data) ∧
    Address.parse "a:1234".data = .ok (Address.new "a".data 1234) ∧
    Address.parse "a:b".data = .error AddressError.InvalidPort ∧
    Address.parse "a:1234:5678".data = .error AddressError.InvalidFormat := by
  decide

/-- Mirror of `test_address_display` in `src/lib.rs`. -/
theorem test_address_display :
    (Address.from_host "abc".data).render = "abc".data ∧
    (Address.new "abc".data 123).render = "abc:123".data := by decide

/-- Mirror of `test_parse_vec` in `src/address.rs`. -/
theorem test_parse_vec :
    address.Address.parse_vec ["a".data, "b:9222".data] =
      .ok [address.Address.new "a".data 22,
        address.Address.new "b".data 9222] ∧
    address.Address.parse_vec ["a".data, "b:abcd".data] =
      .error AddressError.InvalidPort := by decide
